import Mathlib

/-!
Verification of the sellTrigger stock-watchlist monitor
(src/api/index.py and src/api/main.py).

Python floats are modelled by the rationals; the two outbound HTTP calls
are modelled by oracle arguments (an optional response stands for a call
that either returned or raised inside its try/except).
-/

namespace SellTrigger

-- ===================================================================
-- HTTP-level model
-- ===================================================================

structure HttpResponse where
  status : Nat
  body : String
deriving DecidableEq

/-- Embedding of `StockMonitor.get_stock_price` (src/api/index.py, lines
26-36).  The HTTP GET is modelled by an optional response: `none` means
the request raised (timeout, connection failure), which the try/except
turns into the fall-through return of 0.0.  `extract` stands for
`extract_price_from_html`, which in the source is total (it catches its
own exceptions and returns 0.0 on failure). -/
def get_stock_price (extract : String → ℚ) (resp : Option HttpResponse) : ℚ :=
  match resp with
  | none => 0
  | some r => if r.status = 200 then extract r.body else 0

/-- Embedding of `StockMonitor.send_sell_request` (src/api/index.py,
lines 38-47).  The HTTP GET is modelled by an optional status code:
`none` means the request raised, and the except branch returns `False`. -/
def send_sell_request (resp : Option Nat) : Bool :=
  match resp with
  | none => false
  | some status => status == 200

-- ===================================================================
-- Watchlist evaluator (check_and_process_stocks)
-- ===================================================================

/-- The percentage computed at src/api/index.py line 65:
`((target_price - current_price) / target_price) * 100`. -/
def diffPercent (target current : ℚ) : ℚ :=
  ((target - current) / target) * 100

/-- Python `round(x, 2)`: rounding to two decimal places, ties going to
the even hundredth, modelled exactly on the rationals. -/
def round2 (q : ℚ) : ℚ :=
  let s : ℚ := q * 100
  let f : ℤ := ⌊s⌋
  let n : ℤ :=
    if s - f < 1/2 then f
    else if 1/2 < s - f then f + 1
    else if f % 2 = 0 then f else f + 1
  (n : ℚ) / 100

/-- One element of the `results` list built by
`check_and_process_stocks`: either the per-symbol result dict (with
`sell_success` present only when a sell was triggered) or the error
record appended by the per-symbol except branch. -/
inductive ResultEntry where
  | ok (stock : String) (current_price target_price difference_percent : ℚ)
      (sell_triggered : Bool) (sell_success : Option Bool)
  | err (stock : String) (error : String)
deriving DecidableEq

def ResultEntry.stock : ResultEntry → String
  | .ok s _ _ _ _ _ => s
  | .err s _ => s

/-- The mutable state of the for-loop in `check_and_process_stocks`:
the `results` and `stocks_to_remove` accumulators of the source, plus
two instrumentation logs recording which symbols the price fetcher and
the sell dispatcher are called on. -/
structure PassState where
  results : List ResultEntry
  toRemove : List String
  fetchLog : List String
  sellLog : List String
deriving DecidableEq

/-- One iteration of the loop at src/api/index.py lines 60-87.  `fetch`
and `sell` are the (total) `monitor.get_stock_price` and
`monitor.send_sell_request`.  The only statement inside the try block
that can raise is the division at line 65: when `target_price` is 0 it
raises `ZeroDivisionError("float division by zero")`, which the except
branch records as an error entry. -/
def stepStock (fetch : String → ℚ) (sell : String → Bool)
    (st : PassState) (e : String × ℚ) : PassState :=
  let current := fetch e.1
  let st1 : PassState := { st with fetchLog := st.fetchLog ++ [e.1] }
  if 0 < current then
    if e.2 = 0 then
      { st1 with results := st1.results ++ [.err e.1 "float division by zero"] }
    else
      let d := diffPercent e.2 current
      if 1 ≤ d then
        let ss := sell e.1
        { st1 with
          results := st1.results ++ [.ok e.1 current e.2 (round2 d) true (some ss)],
          toRemove := if ss then st1.toRemove ++ [e.1] else st1.toRemove,
          sellLog := st1.sellLog ++ [e.1] }
      else
        { st1 with results := st1.results ++ [.ok e.1 current e.2 (round2 d) false none] }
  else st1

/-- The whole for-loop, started from empty accumulators. -/
def runPass (fetch : String → ℚ) (sell : String → Bool)
    (wl : List (String × ℚ)) : PassState :=
  wl.foldl (stepStock fetch sell) ⟨[], [], [], []⟩

/-- The dict returned by `check_and_process_stocks`: exactly one of the
`message` field (empty-watchlist short-circuit) or the
`results`/`remaining_watchlist` pair is present. -/
structure CheckOutput where
  message : Option String
  results : Option (List ResultEntry)
  remaining_watchlist : Option (List (String × ℚ))
deriving DecidableEq

/-- Embedding of `check_and_process_stocks` (src/api/index.py lines
52-96) together with the two call logs.  The final deletion loop
(lines 90-91) removes from the watchlist, in place and keeping the
order of the remaining keys, every key collected in
`stocks_to_remove`. -/
def checkAndProcessFull (fetch : String → ℚ) (sell : String → Bool)
    (wl : List (String × ℚ)) : CheckOutput × List String × List String :=
  if wl = [] then (⟨some "No stocks in watchlist", none, none⟩, [], [])
  else
    let st := runPass fetch sell wl
    (⟨none, some st.results,
      some (wl.filter (fun e => decide (e.1 ∉ st.toRemove)))⟩,
     st.fetchLog, st.sellLog)

/-- The value `check_and_process_stocks` returns to its caller. -/
def check_and_process_stocks (fetch : String → ℚ) (sell : String → Bool)
    (wl : List (String × ℚ)) : CheckOutput :=
  (checkAndProcessFull fetch sell wl).1

def resultsList (fetch : String → ℚ) (sell : String → Bool)
    (wl : List (String × ℚ)) : List ResultEntry :=
  ((check_and_process_stocks fetch sell wl).results).getD []

/-- The watchlist as it stands after one evaluation pass (the pass
mutates the global dict; on the empty short-circuit it is untouched). -/
def remainingList (fetch : String → ℚ) (sell : String → Bool)
    (wl : List (String × ℚ)) : List (String × ℚ) :=
  ((check_and_process_stocks fetch sell wl).remaining_watchlist).getD wl

def fetchLogList (fetch : String → ℚ) (sell : String → Bool)
    (wl : List (String × ℚ)) : List String :=
  (checkAndProcessFull fetch sell wl).2.1

def sellLogList (fetch : String → ℚ) (sell : String → Bool)
    (wl : List (String × ℚ)) : List String :=
  (checkAndProcessFull fetch sell wl).2.2

-- Per-entry effect of one loop iteration (used to characterise the fold).

/-- The result entry one iteration appends for the entry `e`, if any. -/
def perResult (fetch : String → ℚ) (sell : String → Bool)
    (e : String × ℚ) : Option ResultEntry :=
  let c := fetch e.1
  if 0 < c then
    if e.2 = 0 then some (.err e.1 "float division by zero")
    else
      let d := diffPercent e.2 c
      if 1 ≤ d then some (.ok e.1 c e.2 (round2 d) true (some (sell e.1)))
      else some (.ok e.1 c e.2 (round2 d) false none)
  else none

/-- The key one iteration appends to `stocks_to_remove`, if any. -/
def perRemove (fetch : String → ℚ) (sell : String → Bool)
    (e : String × ℚ) : Option String :=
  if 0 < fetch e.1 ∧ ¬ e.2 = 0 ∧ 1 ≤ diffPercent e.2 (fetch e.1) ∧ sell e.1 = true
  then some e.1 else none

/-- The symbol one iteration dispatches a sell for, if any. -/
def perSell (fetch : String → ℚ) (e : String × ℚ) : Option String :=
  if 0 < fetch e.1 ∧ ¬ e.2 = 0 ∧ 1 ≤ diffPercent e.2 (fetch e.1)
  then some e.1 else none

-- ===================================================================
-- Request parsing and routing
-- ===================================================================

/-- Character class `[A-Z]` of the stock-name regex. -/
def isUpperAZ (c : Char) : Bool := 'A' ≤ c && c ≤ 'Z'

/-- Character class `[0-9.]` of the price regex. -/
def isPriceChar (c : Char) : Bool := ('0' ≤ c && c ≤ '9') || c == '.'

/-- Embedding of `re.search(r'stockName=([A-Z]{3,4})', path)` from
`handle_add_stock` (src/api/index.py line 143): scan the string left to
right; at the first position where the literal `stockName=` matches and
is followed by at least 3 uppercase letters, capture greedily up to 4 of
them; a position where fewer than 3 follow fails and the scan moves on. -/
def searchStock : List Char → Option String
  | [] => none
  | c :: rest =>
    if ("stockName=".toList).isPrefixOf (c :: rest) then
      let run := (((c :: rest).drop 10).take 4).takeWhile isUpperAZ
      if 3 ≤ run.length then some (String.mk run)
      else searchStock rest
    else searchStock rest

/-- Embedding of `re.search(r'price=([0-9.]+)', s)` (src/api/index.py
line 153): at the first position where the literal `price=` matches and
is followed by at least one digit-or-dot character, capture the maximal
run of such characters. -/
def searchPrice : List Char → Option String
  | [] => none
  | c :: rest =>
    if ("price=".toList).isPrefixOf (c :: rest) then
      let run := ((c :: rest).drop 6).takeWhile isPriceChar
      if run.length ≠ 0 then some (String.mk run)
      else searchPrice rest
    else searchPrice rest

def digitsToNat (l : List Char) : Nat :=
  l.foldl (fun n c => 10 * n + (c.toNat - 48)) 0

/-- Python `float()` restricted to the strings the price regex can
produce (nonempty strings over digits and the dot): it succeeds exactly
when there is at most one dot and at least one digit, and raises
`ValueError` (here `none`) otherwise, e.g. on `"1.2.3"` or `".."`. -/
def pyFloat (s : String) : Option ℚ :=
  let l := s.toList
  if l.all isPriceChar ∧ l.count '.' ≤ 1 ∧ l.any (fun c => '0' ≤ c && c ≤ '9') then
    let intPart := l.takeWhile (fun c => c != '.')
    let fracPart := (l.dropWhile (fun c => c != '.')).drop 1
    some ((digitsToNat intPart : ℚ) + (digitsToNat fracPart : ℚ) / (10 ^ fracPart.length))
  else none

/-- Python dict assignment `stock_watchlist[stock_symbol] = target_price`:
update in place when the key is present (insertion order kept),
otherwise append at the end. -/
def upsert (wl : List (String × ℚ)) (k : String) (v : ℚ) : List (String × ℚ) :=
  if wl.any (fun e => e.1 == k) then
    wl.map (fun e => if e.1 == k then (k, v) else e)
  else wl ++ [(k, v)]

/-- The JSON body of a reply, abstracted to its distinguishing content. -/
inductive RespBody where
  | message (s : String)
  | errorBody (s : String)
  | addOk (stock : String) (target_price : ℚ)
  | checkBody (o : CheckOutput)
  | infoBody (wl : List (String × ℚ))
deriving DecidableEq

structure HttpReply where
  statusCode : Nat
  body : RespBody
deriving DecidableEq

/-- Embedding of `handle_add_stock` (src/api/index.py lines 139-179),
returning the reply and the watchlist after the call.  Both regexes run
over the path.  A price string that matches `[0-9.]+` but on which
`float()` raises escapes to the outer except and yields 500. -/
def handle_add_stock (wl : List (String × ℚ)) (path : String) :
    HttpReply × List (String × ℚ) :=
  match searchStock path.toList with
  | none => (⟨400, .errorBody "Invalid stock name format. Use 3-4 letter code."⟩, wl)
  | some sym =>
    match searchPrice path.toList with
    | none => (⟨400, .errorBody "Price parameter is required"⟩, wl)
    | some ps =>
      match pyFloat ps with
      | none => (⟨500, .errorBody ("could not convert string to float: " ++ ps)⟩, wl)
      | some p => (⟨200, .addOk sym p⟩, upsert wl sym p)

/-- Embedding of `handle_add_stock` (src/api/main.py lines 222-276):
the stock regex runs over the path, the price regex over the query
string, and a `ValueError` from `float()` is caught and turned into a
400 reply. -/
def handle_add_stock_main (wl : List (String × ℚ)) (path query : String) :
    HttpReply × List (String × ℚ) :=
  match searchStock path.toList with
  | none => (⟨400, .errorBody "Invalid stock name format. Use 3-4 letter code."⟩, wl)
  | some sym =>
    match searchPrice query.toList with
    | none => (⟨400, .errorBody "Price parameter is required"⟩, wl)
    | some ps =>
      match pyFloat ps with
      | none => (⟨400, .errorBody "Invalid price format"⟩, wl)
      | some p => (⟨200, .addOk sym p⟩, upsert wl sym p)

inductive Method where
  | GET
  | POST
deriving DecidableEq

/-- Python `pat in s` substring test on character lists. -/
def hasSub (l pat : List Char) : Bool :=
  match l with
  | [] => pat.isPrefixOf ([] : List Char)
  | c :: rest => pat.isPrefixOf (c :: rest) || hasSub rest pat

/-- Embedding of `handler` (src/api/index.py lines 98-128): GET requests
are routed by path, every POST request is acknowledged with the fixed
message and touches nothing.  Components: reply, watchlist after the
call, fetcher calls made, dispatcher calls made. -/
def handler_index (fetch : String → ℚ) (sell : String → Bool)
    (wl : List (String × ℚ)) (method : Method) (path : String) :
    HttpReply × List (String × ℚ) × List String × List String :=
  match method with
  | .GET =>
    if path == "/restart" then
      (⟨200, .message "Stock watchlist cleared"⟩, [], [], [])
    else if hasSub path.toList "stockName=".toList then
      let r := handle_add_stock wl path
      (r.1, r.2, [], [])
    else if path == "/check" then
      let r := checkAndProcessFull fetch sell wl
      (⟨200, .checkBody r.1⟩, (r.1.remaining_watchlist).getD wl, r.2.1, r.2.2)
    else (⟨404, .message "Not found"⟩, wl, [], [])
  | .POST => (⟨200, .message "POST received"⟩, wl, [], [])

/-- Embedding of `handler` (src/api/main.py lines 157-205): the request
method is read (line 161) but only printed, so routing ignores it and
dispatches on the path alone, for POST exactly as for GET. -/
def handler_main (fetch : String → ℚ) (sell : String → Bool)
    (wl : List (String × ℚ)) (_method : Method) (path query : String) :
    HttpReply × List (String × ℚ) × List String × List String :=
  if path == "/restart" || path.endsWith "/restart" then
    (⟨200, .message "Stock watchlist cleared"⟩, [], [], [])
  else if hasSub path.toList "stockName=".toList then
    let r := handle_add_stock_main wl path query
    (r.1, r.2, [], [])
  else if path == "/check" || path.endsWith "/check" then
    let r := checkAndProcessFull fetch sell wl
    (⟨200, .checkBody r.1⟩, (r.1.remaining_watchlist).getD wl, r.2.1, r.2.2)
  else (⟨200, .infoBody wl⟩, wl, [], [])

-- ===================================================================
-- Characterisation of the evaluation pass
-- ===================================================================

lemma stepStock_eq (fetch : String → ℚ) (sell : String → Bool)
    (st : PassState) (e : String × ℚ) :
    stepStock fetch sell st e =
      ⟨st.results ++ (perResult fetch sell e).toList,
       st.toRemove ++ (perRemove fetch sell e).toList,
       st.fetchLog ++ [e.1],
       st.sellLog ++ (perSell fetch e).toList⟩ := by
  obtain ⟨res, rem, fl, sl⟩ := st
  by_cases h1 : 0 < fetch e.1
  · by_cases h2 : e.2 = 0
    · simp [stepStock, perResult, perRemove, perSell, h1, h2]
    · by_cases h3 : 1 ≤ diffPercent e.2 (fetch e.1)
      · cases hss : sell e.1 <;>
          simp [stepStock, perResult, perRemove, perSell, h1, h2, h3, hss]
      · simp [stepStock, perResult, perRemove, perSell, h1, h2, h3]
  · simp [stepStock, perResult, perRemove, perSell, h1]

lemma foldl_stepStock (fetch : String → ℚ) (sell : String → Bool)
    (wl : List (String × ℚ)) (init : PassState) :
    wl.foldl (stepStock fetch sell) init =
      ⟨init.results ++ wl.filterMap (perResult fetch sell),
       init.toRemove ++ wl.filterMap (perRemove fetch sell),
       init.fetchLog ++ wl.map Prod.fst,
       init.sellLog ++ wl.filterMap (perSell fetch)⟩ := by
  induction wl generalizing init with
  | nil => obtain ⟨res, rem, fl, sl⟩ := init; simp
  | cons a l ih =>
    rw [List.foldl_cons, stepStock_eq, ih]
    obtain ⟨res, rem, fl, sl⟩ := init
    cases hr : perResult fetch sell a <;> cases hm : perRemove fetch sell a <;>
      cases hs : perSell fetch a <;>
        simp [List.filterMap_cons, hr, hm, hs, List.append_assoc]

lemma runPass_eq (fetch : String → ℚ) (sell : String → Bool)
    (wl : List (String × ℚ)) :
    runPass fetch sell wl =
      ⟨wl.filterMap (perResult fetch sell),
       wl.filterMap (perRemove fetch sell),
       wl.map Prod.fst,
       wl.filterMap (perSell fetch)⟩ := by
  rw [runPass, foldl_stepStock]
  simp

lemma key_eq_of_nodup {wl : List (String × ℚ)} (hnd : (wl.map Prod.fst).Nodup)
    {s : String} {t : ℚ} (hmem : (s, t) ∈ wl) {e : String × ℚ}
    (he : e ∈ wl) (hk : e.1 = s) : e = (s, t) := by
  induction wl with
  | nil => cases hmem
  | cons a l ih =>
    rw [List.map_cons, List.nodup_cons] at hnd
    rcases List.mem_cons.mp hmem with h | h
    · rcases List.mem_cons.mp he with h2 | h2
      · rw [h2, ← h]
      · exact absurd (hk ▸ List.mem_map_of_mem Prod.fst h2)
          (by rw [← h] at hnd; exact hnd.1)
    · rcases List.mem_cons.mp he with h2 | h2
      · have has : a.1 = s := by rw [← h2]; exact hk
        exact absurd (by rw [has]; exact List.mem_map_of_mem Prod.fst h) hnd.1
      · exact ih hnd.2 h h2

lemma perResult_stock {fetch : String → ℚ} {sell : String → Bool}
    {e : String × ℚ} {r : ResultEntry}
    (h : perResult fetch sell e = some r) : r.stock = e.1 := by
  simp only [perResult] at h
  split_ifs at h <;>
    first
      | exact Option.noConfusion h
      | (injection h with h; subst h; rfl)

lemma filter_filterMap_of_not_mem {fetch : String → ℚ} {sell : String → Bool}
    {l : List (String × ℚ)} {s : String} (h : s ∉ l.map Prod.fst) :
    (l.filterMap (perResult fetch sell)).filter (fun r => r.stock == s) = [] := by
  induction l with
  | nil => rfl
  | cons a l ih =>
    have ha : a.1 ≠ s := fun hc =>
      h (List.mem_cons.mpr (Or.inl hc.symm))
    have hl : s ∉ l.map Prod.fst := fun hc =>
      h (List.mem_cons.mpr (Or.inr hc))
    cases hr : perResult fetch sell a with
    | none => simpa [List.filterMap_cons, hr] using ih hl
    | some r =>
      have hrs : r.stock = a.1 := perResult_stock hr
      simpa [List.filterMap_cons, hr, List.filter_cons, hrs, ha] using ih hl

lemma filter_results_eq {fetch : String → ℚ} {sell : String → Bool}
    {wl : List (String × ℚ)} {s : String} {t : ℚ}
    (hnd : (wl.map Prod.fst).Nodup) (hmem : (s, t) ∈ wl) :
    (wl.filterMap (perResult fetch sell)).filter (fun r => r.stock == s)
      = (perResult fetch sell (s, t)).toList := by
  induction wl with
  | nil => cases hmem
  | cons a l ih =>
    rw [List.map_cons, List.nodup_cons] at hnd
    rcases List.mem_cons.mp hmem with h | h
    · subst h
      have hl : s ∉ l.map Prod.fst := by simpa using hnd.1
      cases hr : perResult fetch sell (s, t) with
      | none => simp [List.filterMap_cons, hr, filter_filterMap_of_not_mem hl]
      | some r =>
        have hrs : r.stock = s := perResult_stock hr
        simp [List.filterMap_cons, hr, List.filter_cons, hrs,
          filter_filterMap_of_not_mem hl]
    · have ha : a.1 ≠ s := fun hc =>
        hnd.1 (hc ▸ List.mem_map_of_mem Prod.fst h)
      cases hr : perResult fetch sell a with
      | none => simpa [List.filterMap_cons, hr] using ih hnd.2 h
      | some r =>
        have hrs : r.stock = a.1 := perResult_stock hr
        simpa [List.filterMap_cons, hr, List.filter_cons, hrs, ha]
          using ih hnd.2 h

lemma mem_filterMap_key_iff {wl : List (String × ℚ)}
    {f : String × ℚ → Option String}
    (hf : ∀ e s', f e = some s' → s' = e.1)
    (hnd : (wl.map Prod.fst).Nodup) {s : String} {t : ℚ} (hmem : (s, t) ∈ wl) :
    s ∈ wl.filterMap f ↔ f (s, t) = some s := by
  constructor
  · intro h
    rcases List.mem_filterMap.mp h with ⟨e, he, hfe⟩
    rwa [key_eq_of_nodup hnd hmem he (hf e s hfe).symm] at hfe
  · intro h
    exact List.mem_filterMap.mpr ⟨(s, t), hmem, h⟩

lemma resultsList_eq {fetch : String → ℚ} {sell : String → Bool}
    {wl : List (String × ℚ)} (h : wl ≠ []) :
    resultsList fetch sell wl = wl.filterMap (perResult fetch sell) := by
  rw [resultsList, check_and_process_stocks, checkAndProcessFull, if_neg h,
    runPass_eq]
  simp

lemma remainingList_eq {fetch : String → ℚ} {sell : String → Bool}
    {wl : List (String × ℚ)} (h : wl ≠ []) :
    remainingList fetch sell wl =
      wl.filter (fun e => decide (e.1 ∉ wl.filterMap (perRemove fetch sell))) := by
  rw [remainingList, check_and_process_stocks, checkAndProcessFull, if_neg h,
    runPass_eq]
  simp

lemma fetchLogList_eq {fetch : String → ℚ} {sell : String → Bool}
    {wl : List (String × ℚ)} (h : wl ≠ []) :
    fetchLogList fetch sell wl = wl.map Prod.fst := by
  rw [fetchLogList, checkAndProcessFull, if_neg h, runPass_eq]

lemma sellLogList_eq {fetch : String → ℚ} {sell : String → Bool}
    {wl : List (String × ℚ)} (h : wl ≠ []) :
    sellLogList fetch sell wl = wl.filterMap (perSell fetch) := by
  rw [sellLogList, checkAndProcessFull, if_neg h, runPass_eq]

lemma perSell_key {fetch : String → ℚ} :
    ∀ (e : String × ℚ) (s' : String), perSell fetch e = some s' → s' = e.1 := by
  intro e s' h
  simp only [perSell, Option.ite_none_right_eq_some, Option.some.injEq] at h
  exact h.2.symm

lemma perRemove_key {fetch : String → ℚ} {sell : String → Bool} :
    ∀ (e : String × ℚ) (s' : String), perRemove fetch sell e = some s' → s' = e.1 := by
  intro e s' h
  simp only [perRemove, Option.ite_none_right_eq_some, Option.some.injEq] at h
  exact h.2.symm

lemma perResult_pos {fetch : String → ℚ} {sell : String → Bool} {s : String} {t : ℚ}
    (hpos : 0 < fetch s) (ht : t ≠ 0) :
    perResult fetch sell (s, t) =
      some (if 1 ≤ diffPercent t (fetch s) then
              ResultEntry.ok s (fetch s) t (round2 (diffPercent t (fetch s))) true (some (sell s))
            else
              ResultEntry.ok s (fetch s) t (round2 (diffPercent t (fetch s))) false none) := by
  by_cases h3 : 1 ≤ diffPercent t (fetch s) <;> simp [perResult, hpos, ht, h3]

lemma perSell_pos {fetch : String → ℚ} {s : String} {t : ℚ}
    (hpos : 0 < fetch s) (ht : t ≠ 0) :
    (perSell fetch (s, t) = some s ↔ 1 ≤ diffPercent t (fetch s)) := by
  by_cases h3 : 1 ≤ diffPercent t (fetch s) <;> simp [perSell, hpos, ht, h3]

lemma perRemove_eq_some_iff {fetch : String → ℚ} {sell : String → Bool}
    {s : String} {t : ℚ} :
    perRemove fetch sell (s, t) = some s ↔
      (0 < fetch s ∧ ¬ t = 0 ∧ 1 ≤ diffPercent t (fetch s) ∧ sell s = true) := by
  constructor
  · intro h
    by_contra hc
    rw [perRemove, if_neg ?_] at h
    · exact Option.noConfusion h
    · simpa using hc
  · intro h
    rw [perRemove, if_pos ?_]
    simpa using h

-- ===================================================================
-- Claims about the evaluation pass
-- ===================================================================

/-- C1: for a watchlist entry whose fetched price is strictly positive
(and whose target is nonzero, so the division at line 65 is defined),
the pass records exactly one result entry for the symbol; its
difference_percent field is the two-decimal rounding of
((target - current) / target) * 100, its sell_triggered flag is true
with sell_success the dispatcher result exactly when the unrounded
percentage is ≥ 1, and the dispatcher is called on the symbol exactly
when the unrounded percentage is ≥ 1. -/
theorem claim_C1 (fetch : String → ℚ) (sell : String → Bool)
    (wl : List (String × ℚ)) (s : String) (t : ℚ)
    (hnd : (wl.map Prod.fst).Nodup) (hmem : (s, t) ∈ wl)
    (hpos : 0 < fetch s) (ht : t ≠ 0) :
    (resultsList fetch sell wl).filter (fun r => r.stock == s) =
      [if 1 ≤ diffPercent t (fetch s) then
         ResultEntry.ok s (fetch s) t (round2 (diffPercent t (fetch s))) true (some (sell s))
       else
         ResultEntry.ok s (fetch s) t (round2 (diffPercent t (fetch s))) false none]
    ∧ (s ∈ sellLogList fetch sell wl ↔ 1 ≤ diffPercent t (fetch s)) := by
  have hne : wl ≠ [] := by rintro rfl; cases hmem
  constructor
  · rw [resultsList_eq hne, filter_results_eq hnd hmem, perResult_pos hpos ht]
    rfl
  · rw [sellLogList_eq hne, mem_filterMap_key_iff perSell_key hnd hmem]
    exact perSell_pos hpos ht

/-- C1 witness: target 100, fetched price 98, dispatcher succeeding. -/
theorem claim_C1_witness :
    (resultsList (fun _ => (98:ℚ)) (fun _ => true) [("ABC", (100:ℚ))]).filter
        (fun r => r.stock == "ABC") =
      [if 1 ≤ diffPercent 100 98 then
         ResultEntry.ok "ABC" 98 100 (round2 (diffPercent 100 98)) true (some true)
       else
         ResultEntry.ok "ABC" 98 100 (round2 (diffPercent 100 98)) false none]
    ∧ ("ABC" ∈ sellLogList (fun _ => (98:ℚ)) (fun _ => true) [("ABC", (100:ℚ))]
        ↔ 1 ≤ diffPercent 100 98) :=
  claim_C1 (fun _ => (98:ℚ)) (fun _ => true) [("ABC", (100:ℚ))] "ABC" 100
    (by decide) (by decide) (by decide) (by decide)

/-- C2: an entry survives the pass (with its target unchanged) exactly
when it is not the case that its fetched price was positive, its target
nonzero, the unrounded percentage ≥ 1 and the dispatcher reported
success; and the remaining watchlist is the original list filtered, in
order, by the removal set collected over the whole pass. -/
theorem claim_C2 (fetch : String → ℚ) (sell : String → Bool)
    (wl : List (String × ℚ)) (s : String) (t : ℚ)
    (hnd : (wl.map Prod.fst).Nodup) (hmem : (s, t) ∈ wl) :
    ((s, t) ∈ remainingList fetch sell wl ↔
      ¬ (0 < fetch s ∧ ¬ t = 0 ∧ 1 ≤ diffPercent t (fetch s) ∧ sell s = true))
    ∧ (∀ t', (s, t') ∈ remainingList fetch sell wl → t' = t)
    ∧ remainingList fetch sell wl =
        wl.filter (fun e => decide (e.1 ∉ (runPass fetch sell wl).toRemove)) := by
  have hne : wl ≠ [] := by rintro rfl; cases hmem
  refine ⟨?_, ?_, ?_⟩
  · rw [remainingList_eq hne, List.mem_filter]
    constructor
    · rintro ⟨-, hdec⟩ hc
      rw [decide_eq_true_iff] at hdec
      exact hdec ((mem_filterMap_key_iff perRemove_key hnd hmem).mpr
        (perRemove_eq_some_iff.mpr hc))
    · intro hc
      refine ⟨hmem, decide_eq_true ?_⟩
      intro hmem2
      exact hc (perRemove_eq_some_iff.mp
        ((mem_filterMap_key_iff perRemove_key hnd hmem).mp hmem2))
  · intro t' ht'
    rw [remainingList_eq hne, List.mem_filter] at ht'
    exact (Prod.ext_iff.mp (key_eq_of_nodup hnd hmem ht'.1 rfl)).2
  · rw [remainingList_eq hne, runPass_eq]

/-- C2 witness: target 100, fetched price 98, dispatcher succeeding, so
the symbol is removed. -/
theorem claim_C2_witness :
    ((("ABC", (100:ℚ)) ∈ remainingList (fun _ => (98:ℚ)) (fun _ => true) [("ABC", (100:ℚ))] ↔
      ¬ ((0:ℚ) < 98 ∧ ¬ (100:ℚ) = 0 ∧ 1 ≤ diffPercent 100 98 ∧ true = true))
    ∧ (∀ t', ("ABC", t') ∈ remainingList (fun _ => (98:ℚ)) (fun _ => true) [("ABC", (100:ℚ))] → t' = 100)
    ∧ remainingList (fun _ => (98:ℚ)) (fun _ => true) [("ABC", (100:ℚ))] =
        [("ABC", (100:ℚ))].filter (fun e =>
          decide (e.1 ∉ (runPass (fun _ => (98:ℚ)) (fun _ => true) [("ABC", (100:ℚ))]).toRemove))) :=
  claim_C2 (fun _ => (98:ℚ)) (fun _ => true) [("ABC", (100:ℚ))] "ABC" 100
    (by decide) (by decide)

/-- C3: an entry whose fetched price is exactly 0 contributes no result
entry at all, causes no dispatcher call, and survives the pass with its
target unchanged. -/
theorem claim_C3 (fetch : String → ℚ) (sell : String → Bool)
    (wl : List (String × ℚ)) (s : String) (t : ℚ)
    (hnd : (wl.map Prod.fst).Nodup) (hmem : (s, t) ∈ wl)
    (hzero : fetch s = 0) :
    (resultsList fetch sell wl).filter (fun r => r.stock == s) = []
    ∧ s ∉ sellLogList fetch sell wl
    ∧ (s, t) ∈ remainingList fetch sell wl := by
  have hne : wl ≠ [] := by rintro rfl; cases hmem
  have hres : perResult fetch sell (s, t) = none := by
    simp [perResult, hzero]
  refine ⟨?_, ?_, ?_⟩
  · rw [resultsList_eq hne, filter_results_eq hnd hmem, hres]
    rfl
  · rw [sellLogList_eq hne, mem_filterMap_key_iff perSell_key hnd hmem]
    simp [perSell, hzero]
  · rw [remainingList_eq hne]
    have hnr : s ∉ wl.filterMap (perRemove fetch sell) := by
      rw [mem_filterMap_key_iff perRemove_key hnd hmem]
      simp [perRemove, hzero]
    exact List.mem_filter.mpr ⟨hmem, decide_eq_true hnr⟩

/-- C3 witness: a price of exactly 0 for the only watchlist entry. -/
theorem claim_C3_witness :
    (resultsList (fun _ => (0:ℚ)) (fun _ => true) [("ABC", (100:ℚ))]).filter
        (fun r => r.stock == "ABC") = []
    ∧ "ABC" ∉ sellLogList (fun _ => (0:ℚ)) (fun _ => true) [("ABC", (100:ℚ))]
    ∧ ("ABC", (100:ℚ)) ∈ remainingList (fun _ => (0:ℚ)) (fun _ => true) [("ABC", (100:ℚ))] :=
  claim_C3 (fun _ => (0:ℚ)) (fun _ => true) [("ABC", (100:ℚ))] "ABC" 100
    (by decide) (by decide) rfl

/-- C6: the sell dispatcher returns true exactly when the response
status is 200; a raised exception (modelled by `none`) or any other
status yields false, and the function is total. -/
theorem claim_C6 (resp : Option Nat) :
    send_sell_request resp = true ↔ resp = some 200 := by
  cases resp with
  | none => simp [send_sell_request]
  | some status => simp [send_sell_request]

/-- C7: an empty watchlist short-circuits: the evaluator returns only
the message, with no results and no remaining watchlist, and the fetch
and dispatch logs are empty (no oracle call is made). -/
theorem claim_C7 (fetch : String → ℚ) (sell : String → Bool) :
    checkAndProcessFull fetch sell [] =
      (⟨some "No stocks in watchlist", none, none⟩, [], []) := rfl

-- ===================================================================
-- Concrete evaluations of pyFloat
-- ===================================================================

lemma pyFloat_zero : pyFloat "0" = some 0 := by
  simp only [pyFloat]
  rw [if_pos (by decide)]
  norm_num [show List.takeWhile (fun c => c != '.') ['0'] = ['0'] from by decide,
    show List.dropWhile (fun c => c != '.') ['0'] = [] from by decide,
    show digitsToNat ['0'] = 0 from by decide,
    show digitsToNat ([] : List Char) = 0 from rfl]

lemma pyFloat_100 : pyFloat "100" = some 100 := by
  simp only [pyFloat]
  rw [if_pos (by decide)]
  norm_num [show List.takeWhile (fun c => c != '.') ['1', '0', '0'] = ['1', '0', '0'] from by decide,
    show List.dropWhile (fun c => c != '.') ['1', '0', '0'] = [] from by decide,
    show digitsToNat ['1', '0', '0'] = 100 from by decide,
    show digitsToNat ([] : List Char) = 0 from rfl]

-- ===================================================================
-- Claims about the HTTP wrappers and routers
-- ===================================================================

/-- C4 as stated is false on the code: the price fetch parses the body
only when the status is exactly 200, so a 2xx status such as 204 yields
0.0 even when extraction would succeed (here extraction would give 1). -/
theorem claim_C4_counterexample :
    ¬ (∀ (extract : String → ℚ) (r : HttpResponse),
        200 ≤ r.status → r.status ≤ 299 →
        get_stock_price extract (some r) = extract r.body) := by
  intro h
  have h204 := h (fun _ => 1) ⟨204, ""⟩ (by decide) (by decide)
  rw [get_stock_price, if_neg (by decide)] at h204
  exact absurd h204 (by norm_num)

/-- C4 amended: the fetch never raises (it is total); a raised request
(`none`) or any response whose status is not exactly 200 yields 0.0,
and a response with status exactly 200 yields whatever the HTML
extraction returns on its body. -/
theorem claim_C4_amended (extract : String → ℚ) :
    get_stock_price extract none = 0
    ∧ (∀ r : HttpResponse, r.status ≠ 200 → get_stock_price extract (some r) = 0)
    ∧ (∀ r : HttpResponse, r.status = 200 → get_stock_price extract (some r) = extract r.body) := by
  refine ⟨rfl, ?_, ?_⟩
  · intro r h
    simp [get_stock_price, h]
  · intro r h
    simp [get_stock_price, h]

/-- C4 witness: a 404 response yields 0, a 200 response yields the
extracted value. -/
theorem claim_C4_witness :
    get_stock_price (fun _ => (5:ℚ)) (some ⟨404, "page"⟩) = 0
    ∧ get_stock_price (fun _ => (5:ℚ)) (some ⟨200, "page"⟩) = 5 :=
  ⟨(claim_C4_amended (fun _ => (5:ℚ))).2.1 ⟨404, "page"⟩ (by decide),
   (claim_C4_amended (fun _ => (5:ℚ))).2.2 ⟨200, "page"⟩ rfl⟩

/-- C5 as stated is false on src/api/index.py: a price string that
matches `[0-9.]+` but on which float() raises, such as `1.2.3`, yields
status 500 rather than 400 (the watchlist is still unchanged). -/
theorem claim_C5_counterexample :
    (handle_add_stock [("AAA", (7:ℚ))] "/stockName=ABC?price=1.2.3").1.statusCode = 500
    ∧ (handle_add_stock [("AAA", (7:ℚ))] "/stockName=ABC?price=1.2.3").1.statusCode ≠ 400
    ∧ (handle_add_stock [("AAA", (7:ℚ))] "/stockName=ABC?price=1.2.3").2 = [("AAA", (7:ℚ))] :=
  ⟨by decide, by decide, by decide⟩

/-- C5 amended: a malformed symbol (no match of the stock regex) or a
missing price (no match of the price regex) yields 400 with the
descriptive message and no watchlist mutation, in both variants; a
price string that matches the regex but fails float parsing leaves the
watchlist unchanged but yields 500 in index.py and 400 (with
"Invalid price format") in main.py. -/
theorem claim_C5_amended (wl : List (String × ℚ)) (path query : String) :
    (searchStock path.toList = none →
      handle_add_stock wl path =
        (⟨400, RespBody.errorBody "Invalid stock name format. Use 3-4 letter code."⟩, wl))
    ∧ (∀ sym, searchStock path.toList = some sym → searchPrice path.toList = none →
      handle_add_stock wl path = (⟨400, RespBody.errorBody "Price parameter is required"⟩, wl))
    ∧ (∀ sym ps, searchStock path.toList = some sym → searchPrice path.toList = some ps →
      pyFloat ps = none →
      handle_add_stock wl path =
        (⟨500, RespBody.errorBody ("could not convert string to float: " ++ ps)⟩, wl))
    ∧ (∀ sym ps, searchStock path.toList = some sym → searchPrice query.toList = some ps →
      pyFloat ps = none →
      handle_add_stock_main wl path query =
        (⟨400, RespBody.errorBody "Invalid price format"⟩, wl)) := by
  refine ⟨?_, ?_, ?_, ?_⟩
  · intro h
    rw [handle_add_stock, h]
  · intro sym h1 h2
    rw [handle_add_stock]
    simp only [h1, h2]
  · intro sym ps h1 h2 h3
    rw [handle_add_stock]
    simp only [h1, h2, h3]
  · intro sym ps h1 h2 h3
    rw [handle_add_stock_main]
    simp only [h1, h2, h3]

/-- C5 witness: the three 400/500 outcomes at concrete requests. -/
theorem claim_C5_witness :
    handle_add_stock [] "/stockName=AB?price=1" =
      (⟨400, RespBody.errorBody "Invalid stock name format. Use 3-4 letter code."⟩, [])
    ∧ handle_add_stock [] "/stockName=ABC" =
      (⟨400, RespBody.errorBody "Price parameter is required"⟩, [])
    ∧ handle_add_stock [] "/stockName=ABC?price=1.2.3" =
      (⟨500, RespBody.errorBody ("could not convert string to float: " ++ "1.2.3")⟩, [])
    ∧ handle_add_stock_main [] "/stockName=ABC" "price=1.2.3" =
      (⟨400, RespBody.errorBody "Invalid price format"⟩, []) :=
  ⟨(claim_C5_amended [] "/stockName=AB?price=1" "").1 (by decide),
   (claim_C5_amended [] "/stockName=ABC" "").2.1 "ABC" (by decide) (by decide),
   (claim_C5_amended [] "/stockName=ABC?price=1.2.3" "").2.2.1 "ABC" "1.2.3"
     (by decide) (by decide) (by decide),
   (claim_C5_amended [] "/stockName=ABC" "price=1.2.3").2.2.2 "ABC" "1.2.3"
     (by decide) (by decide) (by decide)⟩

/-- C8 as stated is false on src/api/main.py: its handler ignores the
request method and routes by path, so a POST to /restart clears the
watchlist and answers with the restart message, not "POST received". -/
theorem claim_C8_counterexample :
    handler_main (fun _ => (0:ℚ)) (fun _ => false) [("ABC", (5:ℚ))]
        Method.POST "/restart" "" =
      (⟨200, RespBody.message "Stock watchlist cleared"⟩, [], [], [])
    ∧ RespBody.message "Stock watchlist cleared" ≠ RespBody.message "POST received"
    ∧ ([] : List (String × ℚ)) ≠ [("ABC", (5:ℚ))] :=
  ⟨by decide, by decide, by decide⟩

/-- C8 amended: in src/api/index.py every POST request, on any path,
is answered 200 with the fixed body and performs no processing: the
watchlist is returned untouched and no fetch or dispatch call is made;
src/api/main.py instead ignores the method and routes POST like GET. -/
theorem claim_C8_amended (fetch : String → ℚ) (sell : String → Bool)
    (wl : List (String × ℚ)) (path : String) :
    handler_index fetch sell wl Method.POST path =
      (⟨200, RespBody.message "POST received"⟩, wl, [], []) := rfl

/-- C10: the add endpoint accepts price 0 (storing target 0.0), and an
entry with target 0 and a positive fetched price makes the division
raise inside the per-symbol try block: the pass records an error entry
for that symbol, keeps it in the watchlist, and still processes every
symbol of the list (the fetch log covers the whole watchlist). -/
theorem claim_C10 :
    (∀ wl : List (String × ℚ),
      handle_add_stock wl "/stockName=ABC?price=0" =
        (⟨200, RespBody.addOk "ABC" 0⟩, upsert wl "ABC" 0))
    ∧ (∀ (fetch : String → ℚ) (sell : String → Bool) (wl : List (String × ℚ)) (s : String),
        (wl.map Prod.fst).Nodup → (s, 0) ∈ wl → 0 < fetch s →
        (resultsList fetch sell wl).filter (fun r => r.stock == s) =
            [ResultEntry.err s "float division by zero"]
          ∧ (s, (0:ℚ)) ∈ remainingList fetch sell wl
          ∧ fetchLogList fetch sell wl = wl.map Prod.fst) := by
  constructor
  · intro wl
    have h1 : searchStock "/stockName=ABC?price=0".toList = some "ABC" := by decide
    have h2 : searchPrice "/stockName=ABC?price=0".toList = some "0" := by decide
    rw [handle_add_stock]
    simp only [h1, h2, pyFloat_zero]
  · intro fetch sell wl s hnd hmem hpos
    have hne : wl ≠ [] := by rintro rfl; cases hmem
    have hres : perResult fetch sell (s, 0) =
        some (.err s "float division by zero") := by
      simp [perResult, hpos]
    refine ⟨?_, ?_, fetchLogList_eq hne⟩
    · rw [resultsList_eq hne, filter_results_eq hnd hmem, hres]
      rfl
    · rw [remainingList_eq hne]
      have hnr : s ∉ wl.filterMap (perRemove fetch sell) := by
        rw [mem_filterMap_key_iff perRemove_key hnd hmem]
        simp [perRemove]
      exact List.mem_filter.mpr ⟨hmem, decide_eq_true hnr⟩

/-- C10 witness: adding price 0 to an empty watchlist, then evaluating
a watchlist whose only entry has target 0 against a fetched price 3. -/
theorem claim_C10_witness :
    handle_add_stock [] "/stockName=ABC?price=0" =
      (⟨200, RespBody.addOk "ABC" 0⟩, upsert [] "ABC" 0)
    ∧ ((resultsList (fun _ => (3:ℚ)) (fun _ => true) [("ABC", (0:ℚ))]).filter
          (fun r => r.stock == "ABC") = [ResultEntry.err "ABC" "float division by zero"]
        ∧ ("ABC", (0:ℚ)) ∈ remainingList (fun _ => (3:ℚ)) (fun _ => true) [("ABC", (0:ℚ))]
        ∧ fetchLogList (fun _ => (3:ℚ)) (fun _ => true) [("ABC", (0:ℚ))] =
            [("ABC", (0:ℚ))].map Prod.fst) :=
  ⟨claim_C10.1 [],
   claim_C10.2 (fun _ => (3:ℚ)) (fun _ => true) [("ABC", (0:ℚ))] "ABC"
     (by decide) (by decide) (by decide)⟩

-- ===================================================================
-- Behaviour of the stock regex on over-long symbols (C9)
-- ===================================================================

lemma searchStock_at_match {l : List Char} (h5 : 5 ≤ l.length)
    (hup : ∀ c ∈ l, isUpperAZ c = true) (tl : List Char) :
    searchStock ("stockName=".toList ++ (l ++ tl)) = some (String.mk (l.take 4)) := by
  rw [show "stockName=".toList ++ (l ++ tl)
      = 's' :: 't' :: 'o' :: 'c' :: 'k' :: 'N' :: 'a' :: 'm' :: 'e' :: '=' :: (l ++ tl)
      from rfl]
  simp only [searchStock]
  rw [if_pos (show ("stockName=".toList).isPrefixOf
      ('s' :: 't' :: 'o' :: 'c' :: 'k' :: 'N' :: 'a' :: 'm' :: 'e' :: '=' :: (l ++ tl)) = true
      from by
        rw [show "stockName=".toList
          = ['s', 't', 'o', 'c', 'k', 'N', 'a', 'm', 'e', '='] from rfl]
        simp [List.isPrefixOf_cons₂])]
  rw [show ('s' :: 't' :: 'o' :: 'c' :: 'k' :: 'N' :: 'a' :: 'm' :: 'e' :: '=' :: (l ++ tl)).drop 10
      = l ++ tl from rfl]
  rw [List.take_append_of_le_length (by omega : 4 ≤ l.length)]
  rw [List.takeWhile_eq_self_iff.mpr (fun x hx => hup x (List.mem_of_mem_take hx))]
  rw [if_pos (show 3 ≤ (l.take 4).length from by rw [List.length_take]; omega)]

lemma searchPrice_append_of_ne {l1 l2 : List Char} (h : ∀ c ∈ l1, c ≠ 'p') :
    searchPrice (l1 ++ l2) = searchPrice l2 := by
  induction l1 with
  | nil => rfl
  | cons c rest ih =>
    rw [List.cons_append]
    simp only [searchPrice]
    have hpc : ('p' == c) = false :=
      beq_eq_false_iff_ne.mpr (fun hpc => (h c (List.mem_cons_self c rest)) hpc.symm)
    have hpref : ("price=".toList).isPrefixOf (c :: (rest ++ l2)) = false := by
      rw [show "price=".toList = 'p' :: "rice=".toList from rfl, List.isPrefixOf_cons₂,
        hpc, Bool.false_and]
    rw [if_neg (show ¬ (("price=".toList).isPrefixOf (c :: (rest ++ l2)) = true) from
      fun hcontra => by rw [hpref] at hcontra; exact Bool.false_ne_true hcontra)]
    exact ih (fun x hx => h x (List.mem_cons_of_mem c hx))

lemma upper_ne_p {c : Char} (h : isUpperAZ c = true) : c ≠ 'p' := by
  intro hc
  subst hc
  exact absurd h (by decide)

lemma searchPrice_path {l : List Char} (hup : ∀ c ∈ l, isUpperAZ c = true) :
    searchPrice ("stockName=".toList ++ (l ++ "?price=100".toList)) = some "100" := by
  have hassoc : "stockName=".toList ++ (l ++ "?price=100".toList)
      = ("stockName=".toList ++ (l ++ ['?'])) ++ "price=100".toList := by
    simp [show "?price=100".toList = '?' :: "price=100".toList from rfl,
      List.append_assoc]
  rw [hassoc,
    searchPrice_append_of_ne ?_,
    show searchPrice "price=100".toList = some "100" from by decide]
  intro c hc
  rcases List.mem_append.mp hc with h1 | h2
  · exact (by decide : ∀ x ∈ "stockName=".toList, x ≠ 'p') c h1
  · rcases List.mem_append.mp h2 with h5 | h6
    · exact upper_ne_p (hup c h5)
    · have hq : c = '?' := by simpa using h6
      subst hq
      decide

/-- C9: the symbol validation has no strict upper bound: a path of the
form `stockName=` followed by five or more consecutive uppercase
letters and then `?price=100` is not rejected with 400; the handler
answers 200 and stores only the first four letters of the run as the
watchlist key. -/
theorem claim_C9 (l : List Char) (wl : List (String × ℚ))
    (h5 : 5 ≤ l.length) (hup : ∀ c ∈ l, isUpperAZ c = true) :
    handle_add_stock wl (String.mk ("stockName=".toList ++ (l ++ "?price=100".toList))) =
      (⟨200, RespBody.addOk (String.mk (l.take 4)) 100⟩,
       upsert wl (String.mk (l.take 4)) 100) := by
  rw [handle_add_stock]
  rw [show (String.mk ("stockName=".toList ++ (l ++ "?price=100".toList))).toList
      = "stockName=".toList ++ (l ++ "?price=100".toList) from rfl]
  simp only [searchStock_at_match h5 hup "?price=100".toList, searchPrice_path hup,
    pyFloat_100]

/-- C9 witness: the five-letter symbol ABCDE is accepted and stored as
ABCD. -/
theorem claim_C9_witness :
    handle_add_stock [] "stockName=ABCDE?price=100" =
      (⟨200, RespBody.addOk "ABCD" 100⟩, upsert [] "ABCD" 100) := by
  have h := claim_C9 "ABCDE".toList [] (by decide) (by decide)
  rw [show String.mk ("stockName=".toList ++ ("ABCDE".toList ++ "?price=100".toList))
      = "stockName=ABCDE?price=100" from by decide,
    show String.mk ("ABCDE".toList.take 4) = "ABCD" from by decide] at h
  exact h

end SellTrigger
